import Mathlib

/-!
Verification of `.github/determine-version.py` from the edgedb-cli repository.

The script maps a branch name to a normalized version string:
  * argument validation (`len(sys.argv) != 2 or not sys.argv[1].strip()`),
  * prefix stripping (`v` or `release/`),
  * an anchored regular-expression match (`shortform`),
  * reassembly into `major.minor.micro[-longkind.preval]`.

We embed the script over `List Char`.  The regular expression

  `^(0|[1-9]\d*)\.(0|[1-9]\d*)(\.(0|[1-9]\d*))?((a|b|rc)(0|[1-9]\d*))?$`

is embedded as a deterministic recursive matcher.  In a `str` pattern
`\d` matches every Unicode decimal digit (category Nd), not merely
`0`-`9`; the embedding models this with `isUniDigit`, and models the
whitespace set of `str.strip()` with `isSpace`.  The deterministic
matcher is faithful to the backtracking semantics of the regex because
no ambiguity survives:
  * after a `(0|[1-9]\d*)` token the grammar can only continue with `.`,
    `a`, `b`, `r` or end-of-string, none of which is a `\d` character,
    so taking the maximal `\d` run is equivalent to greedy matching with
    backtracking (any shorter split leaves a `\d` character in front,
    which can never match);
  * a run with a leading `0` and more than one character can only be
    split as the single character `0` followed by a `\d` character,
    which likewise can never match, so the whole alternative fails; a
    run headed by a non-ASCII decimal digit matches neither `0` nor
    `[1-9]`, so it fails outright;
  * if the optional micro group fails (or succeeds but the rest fails),
    the micro-absent alternative leaves a `.`-headed rest, which matches
    neither the prerelease group nor end-of-string, so dropping that
    backtracking branch does not change the result; the same argument
    applies to the optional prerelease group, whose rest starts with
    `a`, `b` or `r`.
-/

/-- The characters removed by Python's `str.strip()`: exactly the code
points on which `str.isspace()` holds, namely `\t\n\x0b\x0c\r` (9-13),
the separators `\x1c`-`\x1f` (28-31), the space (32), NEL (133),
NBSP (160), Ogham space mark (5760), the Unicode spaces 8192-8202, the
line and paragraph separators (8232, 8233), NNBSP (8239), MMSP (8287)
and the ideographic space (12288). -/
def isSpace (c : Char) : Bool :=
  (9 ≤ c.toNat && c.toNat ≤ 13) || (28 ≤ c.toNat && c.toNat ≤ 32) ||
    c.toNat = 133 || c.toNat = 160 || c.toNat = 5760 ||
    (8192 ≤ c.toNat && c.toNat ≤ 8202) || c.toNat = 8232 ||
    c.toNat = 8233 || c.toNat = 8239 || c.toNat = 8287 || c.toNat = 12288

/-- Python `s.strip()`: remove leading and trailing whitespace. -/
def pyStrip (s : List Char) : List Char :=
  ((s.dropWhile isSpace).reverse.dropWhile isSpace).reverse

/-- The characters matched by the regex class `\d` in a `str` pattern:
the Unicode decimal digits (category Nd), listed as the code-point
ranges of the Unicode data of the CPython runtime. -/
def isUniDigit (c : Char) : Bool :=
  (48 ≤ c.toNat && c.toNat ≤ 57) ||
  (1632 ≤ c.toNat && c.toNat ≤ 1641) ||
  (1776 ≤ c.toNat && c.toNat ≤ 1785) ||
  (1984 ≤ c.toNat && c.toNat ≤ 1993) ||
  (2406 ≤ c.toNat && c.toNat ≤ 2415) ||
  (2534 ≤ c.toNat && c.toNat ≤ 2543) ||
  (2662 ≤ c.toNat && c.toNat ≤ 2671) ||
  (2790 ≤ c.toNat && c.toNat ≤ 2799) ||
  (2918 ≤ c.toNat && c.toNat ≤ 2927) ||
  (3046 ≤ c.toNat && c.toNat ≤ 3055) ||
  (3174 ≤ c.toNat && c.toNat ≤ 3183) ||
  (3302 ≤ c.toNat && c.toNat ≤ 3311) ||
  (3430 ≤ c.toNat && c.toNat ≤ 3439) ||
  (3558 ≤ c.toNat && c.toNat ≤ 3567) ||
  (3664 ≤ c.toNat && c.toNat ≤ 3673) ||
  (3792 ≤ c.toNat && c.toNat ≤ 3801) ||
  (3872 ≤ c.toNat && c.toNat ≤ 3881) ||
  (4160 ≤ c.toNat && c.toNat ≤ 4169) ||
  (4240 ≤ c.toNat && c.toNat ≤ 4249) ||
  (6112 ≤ c.toNat && c.toNat ≤ 6121) ||
  (6160 ≤ c.toNat && c.toNat ≤ 6169) ||
  (6470 ≤ c.toNat && c.toNat ≤ 6479) ||
  (6608 ≤ c.toNat && c.toNat ≤ 6617) ||
  (6784 ≤ c.toNat && c.toNat ≤ 6793) ||
  (6800 ≤ c.toNat && c.toNat ≤ 6809) ||
  (6992 ≤ c.toNat && c.toNat ≤ 7001) ||
  (7088 ≤ c.toNat && c.toNat ≤ 7097) ||
  (7232 ≤ c.toNat && c.toNat ≤ 7241) ||
  (7248 ≤ c.toNat && c.toNat ≤ 7257) ||
  (42528 ≤ c.toNat && c.toNat ≤ 42537) ||
  (43216 ≤ c.toNat && c.toNat ≤ 43225) ||
  (43264 ≤ c.toNat && c.toNat ≤ 43273) ||
  (43472 ≤ c.toNat && c.toNat ≤ 43481) ||
  (43504 ≤ c.toNat && c.toNat ≤ 43513) ||
  (43600 ≤ c.toNat && c.toNat ≤ 43609) ||
  (44016 ≤ c.toNat && c.toNat ≤ 44025) ||
  (65296 ≤ c.toNat && c.toNat ≤ 65305) ||
  (66720 ≤ c.toNat && c.toNat ≤ 66729) ||
  (68912 ≤ c.toNat && c.toNat ≤ 68921) ||
  (69734 ≤ c.toNat && c.toNat ≤ 69743) ||
  (69872 ≤ c.toNat && c.toNat ≤ 69881) ||
  (69942 ≤ c.toNat && c.toNat ≤ 69951) ||
  (70096 ≤ c.toNat && c.toNat ≤ 70105) ||
  (70384 ≤ c.toNat && c.toNat ≤ 70393) ||
  (70736 ≤ c.toNat && c.toNat ≤ 70745) ||
  (70864 ≤ c.toNat && c.toNat ≤ 70873) ||
  (71248 ≤ c.toNat && c.toNat ≤ 71257) ||
  (71360 ≤ c.toNat && c.toNat ≤ 71369) ||
  (71472 ≤ c.toNat && c.toNat ≤ 71481) ||
  (71904 ≤ c.toNat && c.toNat ≤ 71913) ||
  (72016 ≤ c.toNat && c.toNat ≤ 72025) ||
  (72784 ≤ c.toNat && c.toNat ≤ 72793) ||
  (73040 ≤ c.toNat && c.toNat ≤ 73049) ||
  (73120 ≤ c.toNat && c.toNat ≤ 73129) ||
  (92768 ≤ c.toNat && c.toNat ≤ 92777) ||
  (92864 ≤ c.toNat && c.toNat ≤ 92873) ||
  (93008 ≤ c.toNat && c.toNat ≤ 93017) ||
  (120782 ≤ c.toNat && c.toNat ≤ 120831) ||
  (123200 ≤ c.toNat && c.toNat ≤ 123209) ||
  (123632 ≤ c.toNat && c.toNat ≤ 123641) ||
  (125264 ≤ c.toNat && c.toNat ≤ 125273) ||
  (130032 ≤ c.toNat && c.toNat ≤ 130041)

/-- The token `(0|[1-9]\d*)` of the regex (named `posint` in the script),
matched at the head of `s`: either the single character `0` with no
further `\d` character following, or an ASCII nonzero digit heading the
maximal `\d` run (see the header comment for why this equals the
regex's backtracking behaviour).  Returns the matched characters and
the rest of the string. -/
def posint (s : List Char) : Option (List Char × List Char) :=
  match (s.takeWhile isUniDigit).head? with
  | none => none
  | some c =>
    if c = '0' then
      if s.takeWhile isUniDigit = ['0'] then
        some (['0'], s.dropWhile isUniDigit)
      else none
    else if 49 ≤ c.toNat && c.toNat ≤ 57 then
      some (s.takeWhile isUniDigit, s.dropWhile isUniDigit)
    else none

/-- The capture groups of the `shortform` regex. -/
structure Groups where
  major : List Char
  minor : List Char
  micro : Option (List Char)
  pre : Option (List Char × List Char)
  deriving Repr, DecidableEq

/-- The optional prerelease group `((a|b|rc)(0|[1-9]\d*))` matched at the
head of `s`: returns (prekind, preval) and the rest. -/
def matchPre (s : List Char) : Option ((List Char × List Char) × List Char) :=
  match s with
  | 'a' :: rest => (posint rest).map (fun p => ((['a'], p.1), p.2))
  | 'b' :: rest => (posint rest).map (fun p => ((['b'], p.1), p.2))
  | 'r' :: 'c' :: rest => (posint rest).map (fun p => ((['r', 'c'], p.1), p.2))
  | _ => none

/-- The literal `.` separating two integer tokens of the regex. -/
def expectDot (s : List Char) : Option (List Char) :=
  match s with
  | '.' :: r => some r
  | _ => none

/-- The anchored `shortform` regex of the script: on success returns the
capture groups; `none` models a failed match.  The two optional groups
fall back to "absent" when they fail; when the group would have started
(`.`-headed rest for micro, `a`/`b`/`r`-headed rest for the prerelease
group) the subsequent anchoring then fails, exactly as the regex's
backtracking does (see the header comment). -/
def shortform (s : List Char) : Option Groups :=
  (posint s).bind fun p1 =>
  (expectDot p1.2).bind fun r2 =>
  (posint r2).bind fun p2 =>
  let mic : Option (List Char) × List Char :=
    match (expectDot p2.2).bind posint with
    | some q => (some q.1, q.2)
    | none => (none, p2.2)
  let pre : Option (List Char × List Char) × List Char :=
    match matchPre mic.2 with
    | some q => (some q.1, q.2)
    | none => (none, mic.2)
  if pre.2 = [] then some ⟨p1.1, p2.1, mic.1, pre.1⟩ else none

/-- The `prerelease_kinds` lookup with its `"dev"` default:
`prerelease_kinds.get(prekind, "dev")`. -/
def prereleaseKinds (k : List Char) : List Char :=
  if k = ['a'] then ['a', 'l', 'p', 'h', 'a']
  else if k = ['b'] then ['b', 'e', 't', 'a']
  else if k = ['r', 'c'] then ['r', 'c']
  else ['d', 'e', 'v']

/-- The body of `main` after prefix stripping: match `version` against
`shortform`; on a match rebuild it as
`{major}.{minor}.{micro}` plus `-{longprekind}.{preval}` when a
prerelease kind is present, with micro defaulting to `'0'`; otherwise
leave `version` unchanged. -/
def normalizeVersion (version : List Char) : List Char :=
  match shortform version with
  | none => version
  | some g =>
    let micro := g.micro.getD ['0']
    let base := g.major ++ ['.'] ++ g.minor ++ ['.'] ++ micro
    match g.pre with
    | none => base
    | some pk => base ++ ['-'] ++ prereleaseKinds pk.1 ++ ['.'] ++ pk.2

/-- The structured-output line: `::set-output name=version::` followed by
the value. -/
def emit (v : List Char) : List Char :=
  "::set-output name=version::".toList ++ v

/-- The message printed to stderr on the invalid-argument path. -/
def errMsg : List Char :=
  ("error: branch name not passed as a sole argument." ++
    " On GHA pass it as part of `client_payload`.").toList

/-- The observable outcome of one run: the exit code, the lines printed
to stdout and the lines printed to stderr. -/
structure Outcome where
  exitCode : Nat
  stdout : List (List Char)
  stderr : List (List Char)
  deriving Repr, DecidableEq

/-- The function `main`, as a function of `sys.argv` (program name
included, so a single positional argument means a two-element list).  Follows the
script line by line: validate the argument, strip it, strip a `v` or
`release/` prefix (printing the branch unchanged when neither applies),
normalizeVersion and print. -/
def pyMain (argv : List (List Char)) : Outcome :=
  match argv with
  | [_, arg] =>
    if pyStrip arg = [] then ⟨1, [], [errMsg]⟩
    else
      let branch := pyStrip arg
      if ['v'].isPrefixOf branch then
        ⟨0, [emit (normalizeVersion (branch.drop 1))], []⟩
      else if "release/".toList.isPrefixOf branch then
        ⟨0, [emit (normalizeVersion (branch.drop "release/".length))], []⟩
      else
        ⟨0, [emit branch], []⟩
  | _ => ⟨1, [], [errMsg]⟩

/-- The resolver as a pure function of the stripped branch name: the
prefix-stripping and normalization steps of `main`, without the argument
validation and printing glue (spec component `VersionResolver`).  `pyMain`
emits exactly `resolve` of the stripped argument on every success path. -/
def resolve (branch : List Char) : List Char :=
  if ['v'].isPrefixOf branch then normalizeVersion (branch.drop 1)
  else if "release/".toList.isPrefixOf branch then
    normalizeVersion (branch.drop "release/".length)
  else branch

/-- The numeric value of a digit string (specification side, for stating
that reassembly preserves the magnitude of the parsed fields). -/
def digitsToNat (s : List Char) : Nat :=
  s.foldl (fun n c => 10 * n + (c.toNat - '0'.toNat)) 0

/-- The major, minor and micro fields of an emitted version string
(specification side): the first two `.`-separated components, and the
decimal-digit run following the second `.`. -/
def fieldsOf (s : List Char) : List Char × List Char × List Char :=
  (s.takeWhile (fun c => c != '.'),
   (((s.dropWhile (fun c => c != '.')).drop 1).takeWhile (fun c => c != '.')),
   ((((s.dropWhile (fun c => c != '.')).drop 1).dropWhile
       (fun c => c != '.')).drop 1).takeWhile isUniDigit)

example : pyMain [['p'], "v1.2.3".toList] =
    ⟨0, ["::set-output name=version::1.2.3".toList], []⟩ := by decide

example : pyMain [['p'], "release/2.0".toList] =
    ⟨0, ["::set-output name=version::2.0.0".toList], []⟩ := by decide

example : pyMain [['p'], "v1.0.0rc1".toList] =
    ⟨0, ["::set-output name=version::1.0.0-rc.1".toList], []⟩ := by decide

example : pyMain [['p'], "v1.2a3".toList] =
    ⟨0, ["::set-output name=version::1.2.0-alpha.3".toList], []⟩ := by decide

example : pyMain [['p'], "feature/foo".toList] =
    ⟨0, ["::set-output name=version::feature/foo".toList], []⟩ := by decide

example : pyMain [['p'], "v01.2.3".toList] =
    ⟨0, ["::set-output name=version::01.2.3".toList], []⟩ := by decide

example : pyMain [['p'], "  ".toList] = ⟨1, [], [errMsg]⟩ := by decide

/-! Helper lemmas. -/

lemma posint_sound {s d r : List Char} (h : posint s = some (d, r)) :
    r = s.dropWhile isUniDigit ∧ d ≠ [] ∧
      (∀ c ∈ d, isUniDigit c = true) ∧
      ∀ c ∈ d.head?, 48 ≤ c.toNat ∧ c.toNat ≤ 57 := by
  unfold posint at h
  cases hh : (s.takeWhile isUniDigit).head? with
  | none =>
    rw [hh] at h
    simp at h
  | some c =>
    rw [hh] at h
    dsimp only at h
    split at h
    · next hc0 =>
      split at h
      · simp only [Option.some.injEq, Prod.mk.injEq] at h
        obtain ⟨rfl, rfl⟩ := h
        subst hc0
        exact ⟨rfl, by simp, by decide, by decide⟩
      · simp at h
    · split at h
      · next hbound =>
        simp only [Bool.and_eq_true, decide_eq_true_eq] at hbound
        simp only [Option.some.injEq, Prod.mk.injEq] at h
        obtain ⟨rfl, rfl⟩ := h
        refine ⟨rfl, ?_, fun x hx => List.mem_takeWhile_imp hx, ?_⟩
        · intro hemp
          rw [hemp] at hh
          simp at hh
        · intro x hx
          rw [hh] at hx
          simp only [Option.mem_def, Option.some.injEq] at hx
          subst hx
          exact ⟨by omega, hbound.2⟩
      · simp at h

lemma matchPre_sound {s : List Char} {pkv : List Char × List Char}
    {r : List Char} (h : matchPre s = some (pkv, r)) :
    (pkv.1 = ['a'] ∨ pkv.1 = ['b'] ∨ pkv.1 = ['r', 'c']) ∧
      pkv.2 ≠ [] ∧ ∀ c ∈ pkv.2, isUniDigit c = true := by
  unfold matchPre at h
  split at h
  · simp only [Option.map_eq_some'] at h
    obtain ⟨⟨v, rr⟩, hp, hq⟩ := h
    obtain ⟨rfl, rfl⟩ := Prod.mk.injEq .. ▸ hq
    obtain ⟨-, hne, hdig, -⟩ := posint_sound hp
    exact ⟨Or.inl rfl, hne, hdig⟩
  · simp only [Option.map_eq_some'] at h
    obtain ⟨⟨v, rr⟩, hp, hq⟩ := h
    obtain ⟨rfl, rfl⟩ := Prod.mk.injEq .. ▸ hq
    obtain ⟨-, hne, hdig, -⟩ := posint_sound hp
    exact ⟨Or.inr (Or.inl rfl), hne, hdig⟩
  · simp only [Option.map_eq_some'] at h
    obtain ⟨⟨v, rr⟩, hp, hq⟩ := h
    obtain ⟨rfl, rfl⟩ := Prod.mk.injEq .. ▸ hq
    obtain ⟨-, hne, hdig, -⟩ := posint_sound hp
    exact ⟨Or.inr (Or.inr rfl), hne, hdig⟩
  · simp at h

lemma shortform_sound {s : List Char} {g : Groups} (h : shortform s = some g) :
    (g.major ≠ [] ∧ (∀ c ∈ g.major, isUniDigit c = true) ∧
      ∀ c ∈ g.major.head?, 48 ≤ c.toNat ∧ c.toNat ≤ 57) ∧
    (g.minor ≠ [] ∧ ∀ c ∈ g.minor, isUniDigit c = true) ∧
    (∀ m ∈ g.micro, m ≠ [] ∧ ∀ c ∈ m, isUniDigit c = true) ∧
    (∀ pkv ∈ g.pre,
      (pkv.1 = ['a'] ∨ pkv.1 = ['b'] ∨ pkv.1 = ['r', 'c']) ∧
      pkv.2 ≠ [] ∧ ∀ c ∈ pkv.2, isUniDigit c = true) := by
  unfold shortform at h
  simp only [Option.bind_eq_some] at h
  obtain ⟨⟨maj, r1⟩, hmaj, r2, hdot, ⟨mnr, r3⟩, hmnr, h⟩ := h
  dsimp only at h
  have hmajS := posint_sound hmaj
  have hmnrS := posint_sound hmnr
  cases hmic : (expectDot r3).bind posint with
  | none =>
    rw [hmic] at h
    dsimp only at h
    cases hpre : matchPre r3 with
    | none =>
      rw [hpre] at h
      dsimp only at h
      split at h
      · simp only [Option.some.injEq] at h
        subst h
        exact ⟨⟨hmajS.2.1, hmajS.2.2.1, hmajS.2.2.2⟩, ⟨hmnrS.2.1, hmnrS.2.2.1⟩,
          fun m hm => by simp at hm, fun pkv hp => by simp at hp⟩
      · simp at h
    | some q =>
      rw [hpre] at h
      dsimp only at h
      split at h
      · simp only [Option.some.injEq] at h
        subst h
        refine ⟨⟨hmajS.2.1, hmajS.2.2.1, hmajS.2.2.2⟩, ⟨hmnrS.2.1, hmnrS.2.2.1⟩,
          fun m hm => by simp at hm, fun pkv hp => ?_⟩
        simp only [Option.mem_def, Option.some.injEq] at hp
        subst hp
        exact matchPre_sound hpre
      · simp at h
  | some q0 =>
    rw [hmic] at h
    dsimp only at h
    obtain ⟨re, hre, hq0⟩ := Option.bind_eq_some.mp hmic
    cases hpre : matchPre q0.2 with
    | none =>
      rw [hpre] at h
      dsimp only at h
      split at h
      · simp only [Option.some.injEq] at h
        subst h
        refine ⟨⟨hmajS.2.1, hmajS.2.2.1, hmajS.2.2.2⟩, ⟨hmnrS.2.1, hmnrS.2.2.1⟩,
          fun m hm => ?_, fun pkv hp => by simp at hp⟩
        simp only [Option.mem_def, Option.some.injEq] at hm
        subst hm
        exact ⟨(posint_sound hq0).2.1, (posint_sound hq0).2.2.1⟩
      · simp at h
    | some q =>
      rw [hpre] at h
      dsimp only at h
      split at h
      · simp only [Option.some.injEq] at h
        subst h
        refine ⟨⟨hmajS.2.1, hmajS.2.2.1, hmajS.2.2.2⟩, ⟨hmnrS.2.1, hmnrS.2.2.1⟩,
          fun m hm => ?_, fun pkv hp => ?_⟩
        · simp only [Option.mem_def, Option.some.injEq] at hm
          subst hm
          exact ⟨(posint_sound hq0).2.1, (posint_sound hq0).2.2.1⟩
        · simp only [Option.mem_def, Option.some.injEq] at hp
          subst hp
          exact matchPre_sound hpre
      · simp at h

lemma normalizeVersion_eq {s : List Char} {g : Groups}
    (h : shortform s = some g) :
    normalizeVersion s =
      g.major ++ ['.'] ++ g.minor ++ ['.'] ++ g.micro.getD ['0'] ++
        (match g.pre with
         | none => []
         | some pkv => ['-'] ++ prereleaseKinds pkv.1 ++ ['.'] ++ pkv.2) := by
  unfold normalizeVersion
  rw [h]
  cases hp : g.pre <;> simp [hp]

lemma normalizeVersion_shape {s : List Char} {g : Groups}
    (h : shortform s = some g) :
    normalizeVersion s =
      g.major ++ '.' :: (g.minor ++ '.' :: (g.micro.getD ['0'] ++
        (match g.pre with
         | none => []
         | some pkv => '-' :: (prereleaseKinds pkv.1 ++ '.' :: pkv.2)))) := by
  rw [normalizeVersion_eq h]
  cases hp : g.pre <;> simp

lemma isUniDigit_prop {c : Char} (h : isUniDigit c = true) :
    isSpace c = false ∧ c.toNat ≠ 100 ∧ c.toNat ≠ 118 ∧ c.toNat ≠ 114 ∧
      c.toNat ≠ 46 ∧ c.toNat ≠ 45 := by
  simp only [isUniDigit, Bool.or_eq_true, Bool.and_eq_true,
    decide_eq_true_eq] at h
  refine ⟨?_, by omega, by omega, by omega, by omega, by omega⟩
  rw [Bool.eq_false_iff]
  intro hs
  simp only [isSpace, Bool.or_eq_true, Bool.and_eq_true,
    decide_eq_true_eq] at hs
  omega

lemma isUniDigit_ne_d {c : Char} (h : isUniDigit c = true) : c ≠ 'd' := by
  intro hc
  subst hc
  exact absurd h (by decide)

lemma isUniDigit_ne_dot {c : Char} (h : isUniDigit c = true) : c ≠ '.' := by
  intro hc
  subst hc
  exact absurd h (by decide)

lemma ascii_digit_ne_v {c : Char} (h : 48 ≤ c.toNat ∧ c.toNat ≤ 57) :
    c ≠ 'v' := by
  intro hc
  subst hc
  exact absurd h (by decide)

lemma ascii_digit_ne_r {c : Char} (h : 48 ≤ c.toNat ∧ c.toNat ≤ 57) :
    c ≠ 'r' := by
  intro hc
  subst hc
  exact absurd h (by decide)

lemma prereleaseKinds_chars {k : List Char}
    (hk : k = ['a'] ∨ k = ['b'] ∨ k = ['r', 'c']) :
    ∀ x ∈ prereleaseKinds k, isSpace x = false ∧ x ≠ 'd' := by
  rcases hk with h | h | h <;> subst h <;> decide

lemma dropWhile_eq_self_of_head {p : Char → Bool} {l : List Char}
    (h : ∀ c ∈ l.head?, p c = false) : l.dropWhile p = l := by
  cases l with
  | nil => rfl
  | cons x t =>
    have hx : p x = false := h x (by simp)
    simp [List.dropWhile_cons, hx]

lemma pyStrip_eq_self {l : List Char} (h : ∀ c ∈ l, isSpace c = false) :
    pyStrip l = l := by
  unfold pyStrip
  rw [dropWhile_eq_self_of_head fun c hc =>
      h c (List.mem_of_mem_head? hc)]
  rw [dropWhile_eq_self_of_head fun c hc =>
      h c (List.mem_reverse.mp (List.mem_of_mem_head? hc))]
  exact List.reverse_reverse l

lemma normalizeVersion_chars {s : List Char} {g : Groups}
    (h : shortform s = some g) :
    ∀ c ∈ normalizeVersion s, isSpace c = false ∧ c ≠ 'd' := by
  obtain ⟨⟨-, hmaj, -⟩, ⟨-, hmnr⟩, hmic, hpre⟩ := shortform_sound h
  rw [normalizeVersion_shape h]
  intro c hc
  simp only [List.mem_append, List.mem_cons] at hc
  rcases hc with hc | hc | hc
  · exact ⟨(isUniDigit_prop (hmaj c hc)).1, isUniDigit_ne_d (hmaj c hc)⟩
  · subst hc; exact ⟨by decide, by decide⟩
  · rcases hc with hc | hc | hc
    · exact ⟨(isUniDigit_prop (hmnr c hc)).1, isUniDigit_ne_d (hmnr c hc)⟩
    · subst hc; exact ⟨by decide, by decide⟩
    · rcases hc with hc | hc
      · cases hg : g.micro with
        | none =>
          rw [hg] at hc
          simp only [Option.getD_none, List.mem_singleton] at hc
          subst hc; exact ⟨by decide, by decide⟩
        | some m =>
          rw [hg] at hc
          simp only [Option.getD_some] at hc
          have hd := (hmic m (by rw [hg]; rfl)).2 c hc
          exact ⟨(isUniDigit_prop hd).1, isUniDigit_ne_d hd⟩
      · cases hg : g.pre with
        | none => rw [hg] at hc; simp at hc
        | some pkv =>
          rw [hg] at hc
          obtain ⟨hk, -, hval⟩ := hpre pkv (by rw [hg]; rfl)
          simp only [List.mem_cons, List.mem_append] at hc
          rcases hc with hc | hc | hc | hc
          · subst hc; exact ⟨by decide, by decide⟩
          · exact prereleaseKinds_chars hk c hc
          · subst hc; exact ⟨by decide, by decide⟩
          · have hd := hval c hc
            exact ⟨(isUniDigit_prop hd).1, isUniDigit_ne_d hd⟩

lemma normalizeVersion_head {s : List Char} {g : Groups}
    (h : shortform s = some g) :
    ∃ c t, normalizeVersion s = c :: t ∧ 48 ≤ c.toNat ∧ c.toNat ≤ 57 := by
  obtain ⟨⟨hne, -, hhead⟩, -, -, -⟩ := shortform_sound h
  obtain ⟨c, cs, hcs⟩ := List.exists_cons_of_ne_nil hne
  refine ⟨c, cs ++ '.' :: (g.minor ++ '.' :: (g.micro.getD ['0'] ++
    (match g.pre with
     | none => []
     | some pkv => '-' :: (prereleaseKinds pkv.1 ++ '.' :: pkv.2)))),
    ?_, hhead c (by rw [hcs]; simp)⟩
  rw [normalizeVersion_shape h, hcs]
  simp

lemma isPrefixOf_eq_false_of_head_ne {c b : Char} {t l : List Char}
    (hc : b ≠ c) : (b :: l).isPrefixOf (c :: t) = false := by
  rw [Bool.eq_false_iff]
  intro h
  rw [ List.isPrefixOf_iff_prefix, List.cons_prefix_cons] at h
  exact hc h.1

lemma pyMain_two (prog arg : List Char) :
    pyMain [prog, arg] =
      if pyStrip arg = [] then ⟨1, [], [errMsg]⟩
      else if ['v'].isPrefixOf (pyStrip arg) then
        ⟨0, [emit (normalizeVersion ((pyStrip arg).drop 1))], []⟩
      else if "release/".toList.isPrefixOf (pyStrip arg) then
        ⟨0, [emit (normalizeVersion ((pyStrip arg).drop "release/".length))], []⟩
      else ⟨0, [emit (pyStrip arg)], []⟩ := rfl

lemma pyMain_prefix_v {prog arg rest : List Char}
    (h : pyStrip arg = 'v' :: rest) :
    pyMain [prog, arg] = ⟨0, [emit (normalizeVersion rest)], []⟩ := by
  rw [pyMain_two, h]
  have hne : ('v' :: rest : List Char) ≠ [] := by simp
  rw [if_neg hne]
  have hv : (['v'] : List Char).isPrefixOf ('v' :: rest) = true := by
    rw [ List.isPrefixOf_iff_prefix, List.cons_prefix_cons]
    exact ⟨rfl, List.nil_prefix⟩
  simp only [hv, if_true, List.drop_one, List.tail_cons]

lemma pyMain_prefix_release {prog arg rest : List Char}
    (h : pyStrip arg = "release/".toList ++ rest) :
    pyMain [prog, arg] = ⟨0, [emit (normalizeVersion rest)], []⟩ := by
  rw [pyMain_two, h]
  have hlist : "release/".toList = ['r', 'e', 'l', 'e', 'a', 's', 'e', '/'] := rfl
  have hne : ("release/".toList ++ rest : List Char) ≠ [] := by
    rw [hlist]; simp
  rw [if_neg hne]
  have hv : (['v'] : List Char).isPrefixOf ("release/".toList ++ rest) = false := by
    rw [hlist]
    exact isPrefixOf_eq_false_of_head_ne (by decide)
  have hr : "release/".toList.isPrefixOf ("release/".toList ++ rest) = true := by
    rw [ List.isPrefixOf_iff_prefix]
    exact List.prefix_append _ _
  have hdrop : ("release/".toList ++ rest).drop "release/".length = rest := by
    have hlen : "release/".length = "release/".toList.length := rfl
    rw [hlen, List.drop_left]
  simp only [hv, Bool.false_eq_true, if_false, hr, if_true, hdrop]

lemma pyMain_passthrough {prog arg : List Char} (h1 : pyStrip arg ≠ [])
    (h2 : (['v'] : List Char).isPrefixOf (pyStrip arg) = false)
    (h3 : "release/".toList.isPrefixOf (pyStrip arg) = false) :
    pyMain [prog, arg] = ⟨0, [emit (pyStrip arg)], []⟩ := by
  rw [pyMain_two, if_neg h1]
  simp only [h2, Bool.false_eq_true, if_false, h3]

lemma takeWhile_dropWhile_append {p : Char → Bool} {l₁ l₂ : List Char}
    (h1 : ∀ c ∈ l₁, p c = true) (h2 : ∀ c ∈ l₂.head?, p c = false) :
    (l₁ ++ l₂).takeWhile p = l₁ ∧ (l₁ ++ l₂).dropWhile p = l₂ := by
  induction l₁ with
  | nil =>
    refine ⟨?_, ?_⟩ <;>
    · cases l₂ with
      | nil => simp
      | cons x t =>
        have hx : p x = false := h2 x (by simp)
        simp [List.takeWhile_cons, List.dropWhile_cons, hx]
  | cons a t ih =>
    have ha : p a = true := h1 a (by simp)
    have iht := ih (fun c hc => h1 c (by simp [hc]))
    constructor
    · simpa [List.takeWhile_cons, ha] using iht.1
    · simpa [List.dropWhile_cons, ha] using iht.2

/-! Claim theorems. -/

/-- Claim C1: for every trimmed input starting with prefix `v` or
`release/` whose prefix-stripped remainder matches the short-form
grammar, the emitted version value is `{major}.{minor}.{micro}` where
micro is the parsed MICRO or `'0'` when absent, followed by
`-{longkind}.{preval}` exactly when a prerelease marker is present,
with longkind given by the fixed mapping a→alpha, b→beta, rc→rc. -/
theorem emitted_value_of_shortform_match
    (prog arg rest : List Char) (g : Groups)
    (hsplit : pyStrip arg = 'v' :: rest ∨
      pyStrip arg = "release/".toList ++ rest)
    (hm : shortform rest = some g) :
    pyMain [prog, arg] =
      ⟨0, [emit (g.major ++ ['.'] ++ g.minor ++ ['.'] ++ g.micro.getD ['0'] ++
        (match g.pre with
         | none => []
         | some pkv =>
             ['-'] ++ (if pkv.1 = ['a'] then "alpha".toList
                       else if pkv.1 = ['b'] then "beta".toList
                       else "rc".toList) ++ ['.'] ++ pkv.2))], []⟩ := by
  have hmain : pyMain [prog, arg] = ⟨0, [emit (normalizeVersion rest)], []⟩ := by
    rcases hsplit with h | h
    · exact pyMain_prefix_v h
    · exact pyMain_prefix_release h
  rw [hmain, normalizeVersion_eq hm]
  obtain ⟨-, -, -, hpre⟩ := shortform_sound hm
  cases hp : g.pre with
  | none => rfl
  | some pkv =>
    dsimp only
    obtain ⟨hk, -, -⟩ := hpre pkv (by rw [hp]; rfl)
    rcases hk with hk | hk | hk <;> rw [hk] <;> rfl

/-- Claim C2: the run exits with code 1, writes exactly the error
message to stderr and nothing to stdout, if and only if the number of
positional arguments differs from one or the sole argument strips to
the empty string; in every other case the exit code is 0. -/
theorem invalid_argument_iff (prog : List Char) (args : List (List Char)) :
    (pyMain (prog :: args) = ⟨1, [], [errMsg]⟩ ↔
      (args.length ≠ 1 ∨ pyStrip (args.headD []) = [])) ∧
    ((pyMain (prog :: args)).exitCode = 0 ↔
      ¬(args.length ≠ 1 ∨ pyStrip (args.headD []) = [])) := by
  rcases args with - | ⟨a, - | ⟨b, t⟩⟩
  · have hrun : pyMain [prog] = ⟨1, [], [errMsg]⟩ := rfl
    have hlen : ([] : List (List Char)).length ≠ 1 := by decide
    rw [hrun]
    exact ⟨⟨fun _ => Or.inl hlen, fun _ => rfl⟩,
      ⟨fun h => absurd h (by decide), fun h => absurd (Or.inl hlen) h⟩⟩
  · by_cases ha : pyStrip a = []
    · rw [pyMain_two, if_pos ha]
      exact ⟨⟨fun _ => Or.inr ha, fun _ => rfl⟩,
        ⟨fun h => absurd h (by decide), fun h => absurd (Or.inr ha) h⟩⟩
    · have hexit : (pyMain [prog, a]).exitCode = 0 := by
        rw [pyMain_two, if_neg ha]
        split
        · rfl
        · split <;> rfl
      have hne1 : pyMain [prog, a] ≠ ⟨1, [], [errMsg]⟩ := fun hcontra => by
        rw [hcontra] at hexit
        exact absurd hexit (by decide)
      have hcond : ¬((([a] : List (List Char)).length ≠ 1) ∨
          pyStrip (([a] : List (List Char)).headD []) = []) := by
        intro h
        rcases h with h | h
        · exact h rfl
        · exact ha h
      exact ⟨⟨fun h => absurd h hne1, fun h => absurd h hcond⟩,
        ⟨fun _ => hcond, fun _ => hexit⟩⟩
  · have hrun : pyMain (prog :: a :: b :: t) = ⟨1, [], [errMsg]⟩ := rfl
    have hlen : (a :: b :: t).length ≠ 1 := by
      simp only [List.length_cons]
      omega
    rw [hrun]
    exact ⟨⟨fun _ => Or.inl hlen, fun _ => rfl⟩,
      ⟨fun h => absurd h (by decide), fun h => absurd (Or.inl hlen) h⟩⟩

/-- Claim C3: a non-empty trimmed input starting with neither `v` nor
`release/` is emitted unchanged, with no grammar matching or
normalization applied. -/
theorem passthrough_without_prefix (prog arg : List Char)
    (h1 : pyStrip arg ≠ [])
    (h2 : (['v'] : List Char).isPrefixOf (pyStrip arg) = false)
    (h3 : "release/".toList.isPrefixOf (pyStrip arg) = false) :
    pyMain [prog, arg] = ⟨0, [emit (pyStrip arg)], []⟩ :=
  pyMain_passthrough h1 h2 h3

/-- Claim C4: a trimmed input with a recognized prefix whose
prefix-stripped remainder does not match the short-form grammar
succeeds and emits the remainder verbatim. -/
theorem passthrough_nonmatching_remainder
    (prog arg rest : List Char)
    (hsplit : pyStrip arg = 'v' :: rest ∨
      pyStrip arg = "release/".toList ++ rest)
    (hm : shortform rest = none) :
    pyMain [prog, arg] = ⟨0, [emit rest], []⟩ := by
  have hmain : pyMain [prog, arg] = ⟨0, [emit (normalizeVersion rest)], []⟩ := by
    rcases hsplit with h | h
    · exact pyMain_prefix_v h
    · exact pyMain_prefix_release h
  rw [hmain]
  simp only [normalizeVersion, hm]

/-- Claim C5: on every successful invocation exactly one line is written
to the structured output channel, of the exact form
`::set-output name=version::<value>` with `<value>` the final resolved
version string, and nothing else is written there. -/
theorem single_structured_output_line (argv : List (List Char))
    (h : (pyMain argv).exitCode = 0) :
    (pyMain argv).stdout = [emit (resolve (pyStrip (argv.getD 1 [])))] := by
  match argv with
  | [] => exact absurd h (by decide)
  | [x] =>
    have hrun : pyMain [x] = ⟨1, [], [errMsg]⟩ := rfl
    rw [hrun] at h
    exact absurd h (by decide)
  | p :: a :: b :: t =>
    have hrun : pyMain (p :: a :: b :: t) = ⟨1, [], [errMsg]⟩ := rfl
    rw [hrun] at h
    exact absurd h (by decide)
  | [p, a] =>
    by_cases ha : pyStrip a = []
    · rw [pyMain_two, if_pos ha] at h
      exact absurd h (by decide)
    · rw [pyMain_two, if_neg ha]
      have hget : ([p, a] : List (List Char)).getD 1 [] = a := rfl
      rw [hget]
      unfold resolve
      by_cases hv : (['v'] : List Char).isPrefixOf (pyStrip a) = true
      · rw [if_pos hv, if_pos hv]
      · rw [if_neg hv, if_neg hv]
        by_cases hr : "release/".toList.isPrefixOf (pyStrip a) = true
        · rw [if_pos hr, if_pos hr]
        · rw [if_neg hr, if_neg hr]

/-- Claim C6: applying the resolver to an output that was produced from a
short-form grammar match returns that output unchanged: the normalized
output starts with a digit, so it has no recognized prefix and passes
through. -/
theorem resolver_fixed_on_normalized (prog s : List Char) (g : Groups)
    (hm : shortform s = some g) :
    pyMain [prog, normalizeVersion s] =
      ⟨0, [emit (normalizeVersion s)], []⟩ := by
  have hchars := normalizeVersion_chars hm
  have hstrip : pyStrip (normalizeVersion s) = normalizeVersion s :=
    pyStrip_eq_self (fun c hc => (hchars c hc).1)
  obtain ⟨c, t, hout, hcd⟩ := normalizeVersion_head hm
  have h1 : pyStrip (normalizeVersion s) ≠ [] := by
    rw [hstrip, hout]
    simp
  have h2 : (['v'] : List Char).isPrefixOf (pyStrip (normalizeVersion s)) = false := by
    rw [hstrip, hout]
    exact isPrefixOf_eq_false_of_head_ne (Ne.symm (ascii_digit_ne_v hcd))
  have h3 : "release/".toList.isPrefixOf (pyStrip (normalizeVersion s)) = false := by
    rw [hstrip, hout]
    exact isPrefixOf_eq_false_of_head_ne (Ne.symm (ascii_digit_ne_r hcd))
  have hres := @pyMain_passthrough prog (normalizeVersion s) h1 h2 h3
  rwa [hstrip] at hres

lemma fieldsOf_reassembled {maj mnr micd tail : List Char}
    (hmaj : ∀ c ∈ maj, isUniDigit c = true)
    (hmnr : ∀ c ∈ mnr, isUniDigit c = true)
    (hmic : ∀ c ∈ micd, isUniDigit c = true)
    (htail : ∀ c ∈ tail.head?, isUniDigit c = false) :
    fieldsOf (maj ++ '.' :: (mnr ++ '.' :: (micd ++ tail))) =
      (maj, mnr, micd) := by
  unfold fieldsOf
  have hdotfail : ∀ x ∈ (('.' :: (mnr ++ '.' :: (micd ++ tail))).head?),
      (x != '.') = false := by
    intro x hx
    simp only [List.head?_cons, Option.mem_def, Option.some.injEq] at hx
    subst hx
    decide
  have h1 := takeWhile_dropWhile_append (p := fun c => c != '.')
    (fun c hc => bne_iff_ne.mpr (isUniDigit_ne_dot (hmaj c hc))) hdotfail
  rw [h1.1, h1.2, List.drop_one, List.tail_cons]
  have hdotfail2 : ∀ x ∈ (('.' :: (micd ++ tail)).head?),
      (x != '.') = false := by
    intro x hx
    simp only [List.head?_cons, Option.mem_def, Option.some.injEq] at hx
    subst hx
    decide
  have h2 := takeWhile_dropWhile_append (p := fun c => c != '.')
    (fun c hc => bne_iff_ne.mpr (isUniDigit_ne_dot (hmnr c hc))) hdotfail2
  rw [h2.1, h2.2, List.drop_one, List.tail_cons]
  have h3 := takeWhile_dropWhile_append (p := isUniDigit) hmic htail
  rw [h3.1]

/-- Claim C7: when the prefix-stripped remainder matches the short-form
grammar, the major, minor and micro fields of the emitted version string
are numerically equal to the parsed MAJOR, MINOR and MICRO fields, with
absent MICRO taken as 0; reassembly never alters their magnitude. -/
theorem reassembly_preserves_fields (s : List Char) (g : Groups)
    (hm : shortform s = some g) :
    digitsToNat (fieldsOf (normalizeVersion s)).1 = digitsToNat g.major ∧
    digitsToNat (fieldsOf (normalizeVersion s)).2.1 = digitsToNat g.minor ∧
    digitsToNat (fieldsOf (normalizeVersion s)).2.2 =
      (match g.micro with
       | some m => digitsToNat m
       | none => 0) := by
  obtain ⟨⟨-, hmaj, -⟩, ⟨-, hmnr⟩, hmic, hpre⟩ := shortform_sound hm
  rw [normalizeVersion_shape hm]
  have hmicd : ∀ c ∈ g.micro.getD ['0'], isUniDigit c = true := by
    cases hgm : g.micro with
    | none => decide
    | some m =>
      simpa using (hmic m (by rw [hgm]; rfl)).2
  have htail : ∀ c ∈ (match g.pre with
      | none => ([] : List Char)
      | some pkv => '-' :: (prereleaseKinds pkv.1 ++ '.' :: pkv.2)).head?,
      isUniDigit c = false := by
    cases hgp : g.pre with
    | none => simp
    | some pkv =>
      intro c hc
      simp only [List.head?_cons, Option.mem_def, Option.some.injEq] at hc
      subst hc
      decide
  rw [fieldsOf_reassembled hmaj hmnr hmicd htail]
  refine ⟨rfl, rfl, ?_⟩
  cases hgm : g.micro with
  | none =>
    dsimp only [Option.getD]
    decide
  | some m => rfl

/-- Claim C8: the defensive `dev` fallback for an unrecognized prerelease
kind is unreachable: whenever the grammar matches and a prerelease marker
is present, the marker is one of `a`, `b`, `rc`, the lookup never falls
back to `dev`, and the character `d` (hence the long kind `dev`) never
occurs in the emitted value. -/
theorem dev_fallback_unreachable (s : List Char) (g : Groups)
    (pkv : List Char × List Char)
    (hm : shortform s = some g) (hp : g.pre = some pkv) :
    (pkv.1 = ['a'] ∨ pkv.1 = ['b'] ∨ pkv.1 = ['r', 'c']) ∧
    prereleaseKinds pkv.1 ≠ "dev".toList ∧
    'd' ∉ normalizeVersion s := by
  obtain ⟨-, -, -, hpre⟩ := shortform_sound hm
  obtain ⟨hk, -, -⟩ := hpre pkv (by rw [hp]; rfl)
  refine ⟨hk, ?_, ?_⟩
  · rcases hk with h | h | h <;> rw [h] <;> decide
  · intro hmem
    exact (normalizeVersion_chars hm 'd' hmem).2 rfl

/-- Claim C9: an input that is exactly `v` or exactly `release/` after
trimming passes the argument check, strips to the empty remainder, the
grammar does not match, and the program succeeds with exit code 0 and an
empty emitted value. -/
theorem bare_prefix_empty_value (prog arg : List Char)
    (h : pyStrip arg = ['v'] ∨ pyStrip arg = "release/".toList) :
    pyMain [prog, arg] = ⟨0, [emit []], []⟩ := by
  rcases h with h | h
  · have hres := @pyMain_prefix_v prog arg [] h
    exact hres.trans (by decide)
  · have hres := @pyMain_prefix_release prog arg [] (by
      rw [h, List.append_nil])
    exact hres.trans (by decide)

/-- Claim C10: prefix stripping is applied exactly once and is
case-sensitive: `vv1.2.3` resolves to `v1.2.3`, `release/v1.2.3`
resolves to `v1.2.3` (neither remainder is re-stripped or normalized),
and `V1.2.3` has no recognized prefix and passes through unchanged. -/
theorem prefix_strip_once_case_sensitive :
    pyMain [['p'], "vv1.2.3".toList] = ⟨0, [emit "v1.2.3".toList], []⟩ ∧
    pyMain [['p'], "release/v1.2.3".toList] =
      ⟨0, [emit "v1.2.3".toList], []⟩ ∧
    pyMain [['p'], "V1.2.3".toList] = ⟨0, [emit "V1.2.3".toList], []⟩ := by
  refine ⟨by decide, by decide, by decide⟩

/-! Witnesses: each claim theorem with hypotheses applied at a concrete
input, all hypotheses discharged by evaluation. -/

/-- Witness for C1 at input `v1.2a3`. -/
theorem emitted_value_of_shortform_match_witness :
    pyMain [['p'], "v1.2a3".toList] =
      ⟨0, ["::set-output name=version::1.2.0-alpha.3".toList], []⟩ := by
  have h := emitted_value_of_shortform_match ['p'] "v1.2a3".toList
    "1.2a3".toList ⟨['1'], ['2'], none, some (['a'], ['3'])⟩
    (Or.inl (by decide)) (by decide)
  exact h.trans (by decide)

/-- Witness for C2 at a whitespace-only argument. -/
theorem invalid_argument_iff_witness :
    pyMain [['p'], "   ".toList] = ⟨1, [], [errMsg]⟩ :=
  (invalid_argument_iff ['p'] ["   ".toList]).1.mpr (Or.inr (by decide))

/-- Witness for C3 at input `1.2`: no prefix, so no normalization even
though the input itself matches the grammar. -/
theorem passthrough_without_prefix_witness :
    pyMain [['p'], "1.2".toList] =
      ⟨0, ["::set-output name=version::1.2".toList], []⟩ := by
  have h := passthrough_without_prefix ['p'] "1.2".toList
    (by decide) (by decide) (by decide)
  exact h.trans (by decide)

/-- Witness for C4 at input `v01.2.3` (leading zero rejected by the
grammar, remainder passed through). -/
theorem passthrough_nonmatching_remainder_witness :
    pyMain [['p'], "v01.2.3".toList] =
      ⟨0, ["::set-output name=version::01.2.3".toList], []⟩ := by
  have h := passthrough_nonmatching_remainder ['p'] "v01.2.3".toList
    "01.2.3".toList (Or.inl (by decide)) (by decide)
  exact h.trans (by decide)

/-- Witness for C5 at input `v1.2.3`. -/
theorem single_structured_output_line_witness :
    (pyMain [['p'], "v1.2.3".toList]).stdout =
      [emit (resolve (pyStrip "v1.2.3".toList))] := by
  have h := single_structured_output_line [['p'], "v1.2.3".toList] (by decide)
  exact h.trans (by decide)

/-- Witness for C6 at input `1.2a3`. -/
theorem resolver_fixed_on_normalized_witness :
    pyMain [['p'], normalizeVersion "1.2a3".toList] =
      ⟨0, [emit (normalizeVersion "1.2a3".toList)], []⟩ :=
  resolver_fixed_on_normalized ['p'] "1.2a3".toList
    ⟨['1'], ['2'], none, some (['a'], ['3'])⟩ (by decide)

/-- Witness for C7 at input `1.2rc7` (micro absent, taken as 0). -/
theorem reassembly_preserves_fields_witness :
    digitsToNat (fieldsOf (normalizeVersion "1.2rc7".toList)).1 =
        digitsToNat ['1'] ∧
    digitsToNat (fieldsOf (normalizeVersion "1.2rc7".toList)).2.1 =
        digitsToNat ['2'] ∧
    digitsToNat (fieldsOf (normalizeVersion "1.2rc7".toList)).2.2 = 0 := by
  have h := reassembly_preserves_fields "1.2rc7".toList
    ⟨['1'], ['2'], none, some (['r', 'c'], ['7'])⟩ (by decide)
  exact ⟨h.1, h.2.1, h.2.2⟩

/-- Witness for C8 at input `1.0.0rc1`. -/
theorem dev_fallback_unreachable_witness :
    prereleaseKinds ['r', 'c'] ≠ "dev".toList ∧
    'd' ∉ normalizeVersion "1.0.0rc1".toList := by
  have h := dev_fallback_unreachable "1.0.0rc1".toList
    ⟨['1'], ['0'], some ['0'], some (['r', 'c'], ['1'])⟩ (['r', 'c'], ['1'])
    (by decide) rfl
  exact ⟨h.2.1, h.2.2⟩

/-- Witness for C9 at the bare input `v`. -/
theorem bare_prefix_empty_value_witness :
    pyMain [['p'], "v".toList] = ⟨0, [emit []], []⟩ :=
  bare_prefix_empty_value ['p'] "v".toList (Or.inl (by decide))
